import Mathlib

set_option maxRecDepth 8000

/-!
Shallow embedding of `src/block.rs` from the `blocky` repository: a block
container format packing many files into one on-disk object.

Modelling conventions:
* Bytes and byte buffers are `Nat` and `List Nat`; u16/u32/u64 fields are `Nat`
  with explicit `% 2 ^ w` where the Rust code truncates (`as u32` casts).
  Arithmetic that wraps in release builds is modelled with the wrap written out.
* Fallible Rust code returns `RustResult`; a Rust panic (index out of bounds,
  slice range out of range, remainder by zero) is the `panicked` constructor,
  carrying a short message that identifies the panic site, while `error` is the
  recoverable `Result::Err` path of the `error_chain` errors.
* The external `md5` crate is kept abstract: block building takes the digest
  function as a parameter `md5 : List Nat -> List Nat`; `md5Model` below is one
  concrete stand-in used to evaluate the model (deterministic, 16-byte output,
  and - like the real MD5, where md5 "" and md5 "\x00" differ - it distinguishes
  the empty message from the single zero byte).
* File system state is reduced to what the claims need: a source file is its
  byte content (claims only concern existing regular files), the build target is
  `Option (List Nat)` (`some` = a file with those bytes already exists), and the
  produced block file is the returned buffer. `BufWriter` buffering, `seek` and
  `set_len` net out to the pure buffer operations written below; the header is
  written last at offset 0, exactly as the source does.
-/

/-- Error kinds of the crate (`error_chain` kinds in `lib.rs` plus the
`chain_err` message kinds used inside `block.rs`, plus wrapped io errors). -/
inductive BlockErr where
  | noFilesInBlock
  | blockFileAlreadyExists
  | blockCorrupted
  | headerCorrupted
  | fileNameTooLong
  | entryCountOverflow
  | ioError
  | invalidUtf8
  deriving DecidableEq

/-- Outcome of running a piece of Rust code: a panic (with a message naming the
panic site), a recoverable `Err`, or success. -/
inductive RustResult (α : Type) where
  | panicked : String → RustResult α
  | error : BlockErr → RustResult α
  | ok : α → RustResult α
  deriving DecidableEq

def RustResult.bind {α β : Type} : RustResult α → (α → RustResult β) → RustResult β
  | .panicked m, _ => .panicked m
  | .error e, _ => .error e
  | .ok a, f => f a

def RustResult.map {α β : Type} (f : α → β) : RustResult α → RustResult β
  | .panicked m => .panicked m
  | .error e => .error e
  | .ok a => .ok (f a)

/-- Modulus of the Rust `u32` type. -/
def u32Mod : Nat := 2 ^ 32

/-- Little-endian byte encoding on `w` bytes, as written by the byteorder
calls `write_u16::<LE>`, `write_u32::<LE>`, `write_u64::<LE>`. -/
def toLE : Nat → Nat → List Nat
  | 0, _ => []
  | w + 1, v => v % 256 :: toLE w (v / 256)

/-- Little-endian byte decoding, as read by `read_u16` / `read_u32` / `read_u64`. -/
def fromLE : List Nat → Nat
  | [] => 0
  | b :: bs => b + 256 * fromLE bs

/-- Model of `read_exact` / the byteorder reads on a byte stream: take `n`
bytes off the front, failing (io `UnexpectedEof`) if fewer are available. -/
def read_exact (n : Nat) (s : List Nat) : RustResult (List Nat × List Nat) :=
  if n ≤ s.length then .ok (s.take n, s.drop n) else .error .ioError

/-- Reads a `w`-byte little-endian unsigned integer off the stream. -/
def readLE (w : Nat) (s : List Nat) : RustResult (Nat × List Nat) :=
  (read_exact w s).bind fun p => .ok (fromLE p.1, p.2)

/-- One index record of the block header (struct `FileInfo` in `block.rs`).
Fields are `u64`/`u32`/`u32` and the 16-byte location digest. -/
structure FileInfo where
  id : Nat
  size : Nat
  offset : Nat
  location_hash : List Nat
  deriving DecidableEq

/-- Encoding of `FileInfo` (its `SelfSerialize::encode`): `id` (8 bytes LE),
`size` (4), `offset` (4), then the 16 digest bytes verbatim. The Rust method
returns `Result` only because the writer can fail; the encoding itself is
total, so the model returns the bytes directly. -/
def FileInfo.encode (fi : FileInfo) : List Nat :=
  toLE 8 fi.id ++ toLE 4 fi.size ++ toLE 4 fi.offset ++ fi.location_hash

/-- Decoding of `FileInfo` (its `SelfSerialize::decode`); each `.bind` is one
`?` operator of the source. -/
def FileInfo.decode (s : List Nat) : RustResult (FileInfo × List Nat) :=
  (readLE 8 s).bind fun p1 =>
  (readLE 4 p1.2).bind fun p2 =>
  (readLE 4 p2.2).bind fun p3 =>
  (read_exact 16 p3.2).bind fun p4 =>
  .ok ({ id := p1.1, size := p2.1, offset := p3.1, location_hash := p4.1 }, p4.2)

/-- Per-file sub-header (struct `FileHeader` in `block.rs`): the MD5 digest of
the member content and the UTF-8 bytes of the location string. -/
structure FileHeader where
  hash : List Nat
  location : List Nat
  deriving DecidableEq

/-- Is `b` a UTF-8 continuation byte (`0x80..=0xBF`)? -/
def isCont (b : Nat) : Bool := 128 ≤ b && b ≤ 191

/-- UTF-8 validity of a byte list, as checked by `String::from_utf8` in the
Rust standard library (rejecting overlong forms, surrogates and values beyond
U+10FFFF). -/
def isValidUtf8 : List Nat → Bool
  | [] => true
  | b :: rest =>
    if b ≤ 127 then isValidUtf8 rest
    else if 194 ≤ b && b ≤ 223 then
      match rest with
      | b1 :: rest1 => isCont b1 && isValidUtf8 rest1
      | [] => false
    else if b = 224 then
      match rest with
      | b1 :: b2 :: rest2 => (160 ≤ b1 && b1 ≤ 191) && isCont b2 && isValidUtf8 rest2
      | _ => false
    else if (225 ≤ b && b ≤ 236) || b = 238 || b = 239 then
      match rest with
      | b1 :: b2 :: rest2 => isCont b1 && isCont b2 && isValidUtf8 rest2
      | _ => false
    else if b = 237 then
      match rest with
      | b1 :: b2 :: rest2 => (128 ≤ b1 && b1 ≤ 159) && isCont b2 && isValidUtf8 rest2
      | _ => false
    else if b = 240 then
      match rest with
      | b1 :: b2 :: b3 :: rest3 =>
        (144 ≤ b1 && b1 ≤ 191) && isCont b2 && isCont b3 && isValidUtf8 rest3
      | _ => false
    else if 241 ≤ b && b ≤ 243 then
      match rest with
      | b1 :: b2 :: b3 :: rest3 =>
        isCont b1 && isCont b2 && isCont b3 && isValidUtf8 rest3
      | _ => false
    else if b = 244 then
      match rest with
      | b1 :: b2 :: b3 :: rest3 =>
        (128 ≤ b1 && b1 ≤ 143) && isCont b2 && isCont b3 && isValidUtf8 rest3
      | _ => false
    else false

/-- Encoding of `FileHeader`: `u16::try_from(location.len())` first (failing
with the "Fail name too long" chain when the length exceeds `u16::MAX`), then
the 16 digest bytes, the 2-byte LE length, and the location bytes. -/
def FileHeader.encode (fh : FileHeader) : RustResult (List Nat) :=
  if fh.location.length < 2 ^ 16 then
    .ok (fh.hash ++ toLE 2 fh.location.length ++ fh.location)
  else .error .fileNameTooLong

/-- Decoding of `FileHeader`: 16 digest bytes, a 2-byte LE length, then that
many location bytes, which `String::from_utf8` requires to be valid UTF-8
(failure chained as "Unable to decode file location"). -/
def FileHeader.decode (s : List Nat) : RustResult (FileHeader × List Nat) :=
  (read_exact 16 s).bind fun p1 =>
  (readLE 2 p1.2).bind fun p2 =>
  (read_exact p2.1 p2.2).bind fun p3 =>
  if isValidUtf8 p3.1 then .ok ({ hash := p1.1, location := p3.1 }, p3.2)
  else .error .invalidUtf8

/-- Block-level header (struct `BlockHeader`): format version and the index
records, in insertion order. -/
structure BlockHeader where
  version : Nat
  file_info : List FileInfo
  deriving DecidableEq

/-- Encoding of `BlockHeader`: `version` (2 bytes LE), the entry count as
`u32::try_from(len)` (failing with the "File id can not fit in u32" chain when
the count exceeds `u32::MAX`), then each entry encoding, back to back. -/
def BlockHeader.encode (h : BlockHeader) : RustResult (List Nat) :=
  if h.file_info.length < u32Mod then
    .ok (toLE 2 h.version ++ toLE 4 h.file_info.length ++
         (h.file_info.map FileInfo.encode).flatten)
  else .error .entryCountOverflow

/-- Decoding loop of `BlockHeader::decode`: reads exactly `n` `FileInfo`
records off the stream. -/
def decodeFileInfos : Nat → List Nat → RustResult (List FileInfo × List Nat)
  | 0, s => .ok ([], s)
  | n + 1, s =>
    (FileInfo.decode s).bind fun p1 =>
    (decodeFileInfos n p1.2).bind fun p2 =>
    .ok (p1.1 :: p2.1, p2.2)

/-- Decoding of `BlockHeader`: version, entry count, then that many entries. -/
def BlockHeader.decode (s : List Nat) : RustResult (BlockHeader × List Nat) :=
  (readLE 2 s).bind fun p1 =>
  (readLE 4 p1.2).bind fun p2 =>
  (decodeFileInfos p2.1 p2.2).bind fun p3 =>
  .ok ({ version := p1.1, file_info := p3.1 }, p3.2)

/-- Reader-side aggregate (struct `Block`): the decoded header plus the
memory-mapped bytes of the whole block file. -/
structure Block where
  header : BlockHeader
  mmap : List Nat
  deriving DecidableEq

/-- Fixed page size constant `BLOCK_PAGE_SIZE` of `block.rs`. -/
def BLOCK_PAGE_SIZE : Nat := 1024

/-- Value of `size_of::<Block>()` on the 64-bit targets this crate builds for:
`BlockHeader` is a `u16` padded next to a 24-byte `Vec`, giving 32 bytes, and
`Mmap` is a pointer plus a length, giving 16. No claim depends on the exact
value; the format only needs it to be at least the 6 fixed header bytes so the
encoded header fits below the first page boundary. -/
def sizeOfBlockStruct : Nat := 48

/-- Value of `size_of::<FileInfo>()`: 8 + 4 + 4 + 16 bytes, no padding. -/
def sizeOfFileInfoStruct : Nat := 32

/-- Translation of `round_up_to` from `block.rs`. A zero base panics on the
`value % base` remainder in every build mode; the `value + base - reminder`
arithmetic is `u32` arithmetic, which wraps modulo `2 ^ 32` in release builds
(the modelled semantics; debug builds would panic at the same inputs). -/
def round_up_to (value : Nat) (base : Nat) : RustResult Nat :=
  if base = 0 then
    .panicked "attempt to calculate the remainder with a divisor of zero"
  else
    let reminder := value % base
    if reminder = 0 then .ok value
    else .ok ((value + base - reminder) % u32Mod)

/-- Builder input (struct `AddFileRequest`): the caller-assigned id, the bytes
of the existing regular source file at `path`, and the UTF-8 bytes of the
logical `location` path string. -/
structure AddFileRequest where
  id : Nat
  content : List Nat
  location : List Nat
  deriving DecidableEq

/-- Translation of `FileInfo::new_at_offset`: the recorded size is
`metadata().len() as u32` (a truncating cast) and the location hash is the
digest of the location string bytes. -/
def FileInfo.new_at_offset (md5 : List Nat → List Nat) (r : AddFileRequest)
    (offset : Nat) : FileInfo :=
  { id := r.id, size := r.content.length % u32Mod, offset := offset,
    location_hash := md5 r.location }

/-- Net effect of `File::set_len(n)`: truncate or zero-extend to length `n`. -/
def setLen (f : List Nat) (n : Nat) : List Nat :=
  if n ≤ f.length then f.take n else f ++ List.replicate (n - f.length) 0

/-- Content of the in-memory copy buffer `Cursor::new(vec![0u8])` after
`io::copy` from the source file: the copy starts writing at position 0, so a
non-empty source overwrites the single seed byte and extends the vector, but an
empty source leaves the vector at its initial one zero byte. -/
def memBufContent (content : List Nat) : List Nat :=
  if content = [] then [0] else content

/-- Body of the build loop of `Block::from_files`, one iteration per request:
grow the file to the next page-aligned offset, hash and write the sub-header
and the copy buffer there, record the `FileInfo`, and advance the offset by
`round_up_to(next_file_offset + bytes_written as u32, BLOCK_PAGE_SIZE)` (both
the cast and the addition are `u32` operations). Returns the file bytes so far
together with the outcome; on a failure the returned bytes are the partial
file, which no claim interrogates further. -/
def buildLoop (md5 : List Nat → List Nat) :
    List AddFileRequest → Nat → List Nat → List Nat × RustResult (List FileInfo)
  | [], _, buf => (buf, .ok [])
  | r :: rest, nextFileOffset, buf =>
    let buf1 := setLen buf nextFileOffset
    let memBuf := memBufContent r.content
    let fh : FileHeader := { hash := md5 memBuf, location := r.location }
    match FileHeader.encode fh with
    | .ok fhBytes =>
      let bytesWritten := fhBytes.length + memBuf.length
      let info := FileInfo.new_at_offset md5 r nextFileOffset
      let buf2 := buf1 ++ fhBytes ++ memBuf
      match round_up_to ((nextFileOffset + bytesWritten % u32Mod) % u32Mod)
          BLOCK_PAGE_SIZE with
      | .ok nextFileOffset2 =>
        match buildLoop md5 rest nextFileOffset2 buf2 with
        | (buf3, .ok infos) => (buf3, .ok (info :: infos))
        | (buf3, .error e) => (buf3, .error e)
        | (buf3, .panicked m) => (buf3, .panicked m)
      | .error e => (buf2, .error e)
      | .panicked m => (buf2, .panicked m)
    | .error e => (buf1, .error e)
    | .panicked m => (buf1, .panicked m)

/-- Translation of `Block::open`: decode the header from the start of the file
(any decode failure is chained into `BlockCorrupted`), then map the whole file.
The name avoids the Lean keyword `open`. -/
def Block.openBlock (buf : List Nat) : RustResult Block :=
  match BlockHeader.decode buf with
  | .ok (h, _) => .ok { header := h, mmap := buf }
  | .error _ => .error .blockCorrupted
  | .panicked m => .panicked m

/-- Translation of `Block::from_files`. `existing` is the state of the target
path (`some` = a file already there, so the `create_new` open fails with the
`BlockFileAlreadyExists` chain); sources are modelled as existing regular
files, so the missing-file branch cannot fire. The second component is the
final state of the target path. The header is encoded and written at offset 0
last, after the members; on the interior failure paths the partial file state
reported is the net buffer written so far. -/
def Block.from_files (md5 : List Nat → List Nat) (existing : Option (List Nat))
    (files : List AddFileRequest) : RustResult Block × Option (List Nat) :=
  if files.isEmpty then (.error .noFilesInBlock, existing)
  else
    match existing with
    | some bs => (.error .blockFileAlreadyExists, some bs)
    | none =>
      let headerSize := (sizeOfBlockStruct +
        files.length * sizeOfFileInfoStruct) % u32Mod
      match round_up_to headerSize BLOCK_PAGE_SIZE with
      | .ok off0 =>
        match buildLoop md5 files off0 [] with
        | (buf, .ok infos) =>
          let header : BlockHeader := { version := 1, file_info := infos }
          match BlockHeader.encode header with
          | .ok hdrBytes =>
            let finalBuf := hdrBytes ++ buf.drop hdrBytes.length
            (Block.openBlock finalBuf, some finalBuf)
          | .error e => (.error e, some buf)
          | .panicked m => (.panicked m, some buf)
        | (buf, .error e) => (.error e, some buf)
        | (buf, .panicked m) => (.panicked m, some buf)
      | .error e => (.error e, some [])
      | .panicked m => (.panicked m, some [])

/-- Translation of `Block::file_at`. Indexing `file_info[idx]` out of range is
a Rust panic; slicing `&data[offset..]` and `&data[start..end]` past the end of
the mapping are Rust panics as well, with distinct messages; a sub-header that
fails to decode is the recoverable `HeaderCorrupted` error. The cursor position
after decoding is the number of consumed bytes. -/
def Block.file_at (b : Block) (idx : Nat) : RustResult (FileHeader × List Nat) :=
  match b.header.file_info.get? idx with
  | none => .panicked "index out of bounds"
  | some info =>
    let data := b.mmap
    if info.offset ≤ data.length then
      let tailBytes := data.drop info.offset
      match FileHeader.decode tailBytes with
      | .ok (fh, restBytes) =>
        let consumed := tailBytes.length - restBytes.length
        let start := info.offset + consumed
        if start + info.size ≤ data.length then
          .ok (fh, (data.drop start).take info.size)
        else .panicked "slice range end out of range"
      | .error _ => .error .headerCorrupted
      | .panicked m => .panicked m
    else .panicked "slice range start out of range"

/-- Translation of `Block::len`. -/
def Block.len (b : Block) : Nat := b.header.file_info.length

/-- Translation of `Block::iter`, as the list it traverses. -/
def Block.iter (b : Block) : List FileInfo := b.header.file_info

/-! Specification-side definitions and concrete fixtures. -/

/-- Mathematical rounding up, following the words of the specification: the
smallest multiple of `base` at or above `value` (written the way the spec
describes it; compared against `round_up_to` in the claims about it). -/
def roundUpSpec (value : Nat) (base : Nat) : Nat :=
  if value % base = 0 then value else value + (base - value % base)

/-- Concrete stand-in for the external `md5::compute`: deterministic, returns a
16-byte digest, and is injective on short messages, so that - like the real
MD5 - it maps the empty message and the single zero byte to distinct digests. -/
def md5Model (bs : List Nat) : List Nat :=
  (bs.take 15).map (· % 256) ++ List.replicate (15 - bs.length) 0 ++
    [bs.length % 256]

/-- Count of bytes one build-loop iteration appends for request `r`: the
encoded sub-header (16 digest bytes, 2 length bytes, the location) plus the
copy buffer. -/
def bytesWrittenOf (r : AddFileRequest) : Nat :=
  (18 + r.location.length) + (memBufContent r.content).length

/-- No `u32` truncation happens in the offset recurrence when the loop starts
at offset `off`: at every step the exact sum and its page round-up stay below
`2 ^ 32`. -/
def noWrapFrom : Nat → List AddFileRequest → Bool
  | _, [] => true
  | off, r :: rest =>
    decide (off + bytesWrittenOf r < u32Mod) &&
    decide (roundUpSpec (off + bytesWrittenOf r) BLOCK_PAGE_SIZE < u32Mod) &&
    noWrapFrom (roundUpSpec (off + bytesWrittenOf r) BLOCK_PAGE_SIZE) rest

/-- Offsets recorded in the header of a successfully built block, `none` when
the build did not return a block. -/
def builtOffsets (r : RustResult Block × Option (List Nat)) : Option (List Nat) :=
  match r.1 with
  | .ok b => some (b.header.file_info.map FileInfo.offset)
  | _ => none

/-- Result of `file_at i` on the block returned by a build, `none` when the
build failed or `file_at` did not return a value. -/
def fileAtResult (r : RustResult Block × Option (List Nat)) (i : Nat) :
    Option (FileHeader × List Nat) :=
  match r.1 with
  | .ok b =>
    match Block.file_at b i with
    | .ok x => some x
    | _ => none
  | _ => none

/-- Well-formedness of a `FileInfo` value as the Rust types guarantee it:
`u64`/`u32`/`u32` fields and a 16-byte digest. -/
@[reducible] def FileInfo.WF (fi : FileInfo) : Prop :=
  fi.id < 2 ^ 64 ∧ fi.size < u32Mod ∧ fi.offset < u32Mod ∧
    fi.location_hash.length = 16

/-- Well-formedness of a `FileHeader` value as the Rust types guarantee it: a
16-byte digest and a `String` location, hence valid UTF-8 bytes. -/
@[reducible] def FileHeader.WF (fh : FileHeader) : Prop :=
  fh.hash.length = 16 ∧ isValidUtf8 fh.location = true

/-- Well-formedness of a `BlockHeader` value as the Rust types guarantee it. -/
@[reducible] def BlockHeader.WF (h : BlockHeader) : Prop :=
  h.version < 2 ^ 16 ∧ ∀ fi ∈ h.file_info, fi.WF

/-- Concrete location bytes "/a". -/
def cLocA : List Nat := [47, 97]

/-- Concrete location bytes "/b". -/
def cLocB : List Nat := [47, 98]

/-- Concrete request with five bytes of content. -/
def cReqHello : AddFileRequest :=
  { id := 1, content := [72, 101, 108, 108, 111], location := cLocA }

/-- Concrete request whose source file is empty. -/
def cReqEmpty : AddFileRequest := { id := 1, content := [], location := cLocA }

/-- Build of a block from the single empty source file, under the concrete
digest model. -/
def cEmptyBuild : RustResult Block × Option (List Nat) :=
  Block.from_files md5Model none [cReqEmpty]

/-- Build of a block from the single five-byte source file, under the concrete
digest model. -/
def cHelloBuild : RustResult Block × Option (List Nat) :=
  Block.from_files md5Model none [cReqHello]

/-- Block value extracted from `cHelloBuild` (fallback never taken). -/
def cHelloBlock : Block :=
  match cHelloBuild.1 with
  | .ok b => b
  | _ => { header := { version := 0, file_info := [] }, mmap := [] }

/-- Constant digest function used for the large-input counterexample: the
offsets computed by the builder depend only on digest length, which matches
the real 16-byte MD5 output. -/
def c5md5 : List Nat → List Nat := fun _ => List.replicate 16 0

/-- Length of the large source file: chosen so that the sub-header (20 bytes)
plus the content is exactly `2 ^ 32` bytes, which the `as u32` cast of
`bytes_written` truncates to zero. -/
def c5Len : Nat := 2 ^ 32 - 20

/-- Large request: `c5Len` zero bytes of content, location "/a". -/
def c5rBig : AddFileRequest :=
  { id := 1, content := List.replicate c5Len 0, location := cLocA }

/-- Small second request, location "/b". -/
def c5rSmall : AddFileRequest := { id := 2, content := [7], location := cLocB }

/-- Concrete `FileInfo` fixture. -/
def cFi : FileInfo :=
  { id := 3, size := 5, offset := 1024, location_hash := List.replicate 16 9 }

/-- Concrete `FileHeader` fixture. -/
def cFh : FileHeader := { hash := List.replicate 16 1, location := cLocA }

/-- Concrete `BlockHeader` fixture. -/
def cBh : BlockHeader := { version := 5, file_info := [cFi] }

/-- Concrete `Block` fixture with one entry and an empty mapping. -/
def cBlk : Block := { header := { version := 1, file_info := [cFi] }, mmap := [] }

/-- Index record the builder produces for the large request: its sub-header
plus content is exactly 2^32 bytes, so the truncated advance keeps the next
offset at 1024. -/
def c5i1 : FileInfo :=
  { id := 1, size := c5Len, offset := 1024, location_hash := List.replicate 16 0 }

/-- Index record the builder produces for the small second request: its
offset collides with the first at 1024 because of the truncation. -/
def c5i2 : FileInfo :=
  { id := 2, size := 1, offset := 1024, location_hash := List.replicate 16 0 }

/-- Sub-header the builder writes for the large request. -/
def c5fh1 : FileHeader :=
  { hash := c5md5 (memBufContent c5rBig.content), location := c5rBig.location }

/-- Encoded bytes of `c5fh1`. -/
def c5fhB1 : List Nat := c5fh1.hash ++ toLE 2 c5fh1.location.length ++ c5fh1.location

/-- Sub-header the builder writes for the small request. -/
def c5fh2 : FileHeader :=
  { hash := c5md5 (memBufContent c5rSmall.content), location := c5rSmall.location }

/-- Encoded bytes of `c5fh2`. -/
def c5fhB2 : List Nat := c5fh2.hash ++ toLE 2 c5fh2.location.length ++ c5fh2.location

/-- File bytes after the first loop iteration of the large build. -/
def c5buf2 : List Nat := setLen [] 1024 ++ c5fhB1 ++ memBufContent c5rBig.content

/-- File bytes after the second loop iteration of the large build. -/
def c5buf3 : List Nat :=
  setLen c5buf2 1024 ++ c5fhB2 ++ memBufContent c5rSmall.content

/-- Encoded block header of the large build. -/
def c5hdrB : List Nat :=
  toLE 2 (1 : Nat) ++ toLE 4 ([c5i1, c5i2].length) ++
    ([c5i1, c5i2].map FileInfo.encode).flatten

/-! Helper lemmas. -/

@[simp] theorem RustResult.bind_ok {α β : Type} (a : α) (f : α → RustResult β) :
    (RustResult.ok a).bind f = f a := rfl

@[simp] theorem RustResult.bind_error {α β : Type} (e : BlockErr)
    (f : α → RustResult β) : (RustResult.error e).bind f = .error e := rfl

@[simp] theorem RustResult.bind_panicked {α β : Type} (m : String)
    (f : α → RustResult β) : (RustResult.panicked m).bind f = .panicked m := rfl

@[simp] theorem toLE_length (w v : Nat) : (toLE w v).length = w := by
  induction w generalizing v with
  | zero => simp [toLE]
  | succ w ih => simp [toLE, ih]

theorem fromLE_toLE (w v : Nat) (h : v < 2 ^ (8 * w)) : fromLE (toLE w v) = v := by
  induction w generalizing v with
  | zero =>
    simp only [toLE, fromLE]
    omega
  | succ w ih =>
    have h2 : v / 256 < 2 ^ (8 * w) := by
      have hm : v < 2 ^ (8 * w) * 256 := by
        have e : 8 * (w + 1) = 8 * w + 8 := by ring
        rw [e, Nat.pow_add] at h
        simpa using h
      exact (Nat.div_lt_iff_lt_mul (by norm_num)).mpr hm
    simp only [toLE, fromLE, ih _ h2]
    exact Nat.mod_add_div v 256

theorem read_exact_of_len (n : Nat) (l r : List Nat) (h : l.length = n) :
    read_exact n (l ++ r) = .ok (l, r) := by
  subst h
  simp [read_exact, List.take_left, List.drop_left]

theorem readLE_toLE (w v : Nat) (rest : List Nat) (h : v < 2 ^ (8 * w)) :
    readLE w (toLE w v ++ rest) = .ok (v, rest) := by
  simp [readLE, read_exact_of_len w (toLE w v) rest (toLE_length w v),
    fromLE_toLE w v h]

theorem readLE8_toLE (v : Nat) (rest : List Nat) (h : v < 2 ^ 64) :
    readLE 8 (toLE 8 v ++ rest) = .ok (v, rest) :=
  readLE_toLE 8 v rest (by norm_num at h ⊢; omega)

theorem readLE4_toLE (v : Nat) (rest : List Nat) (h : v < u32Mod) :
    readLE 4 (toLE 4 v ++ rest) = .ok (v, rest) :=
  readLE_toLE 4 v rest (by norm_num [u32Mod] at h ⊢; omega)

theorem readLE2_toLE (v : Nat) (rest : List Nat) (h : v < 2 ^ 16) :
    readLE 2 (toLE 2 v ++ rest) = .ok (v, rest) :=
  readLE_toLE 2 v rest (by norm_num at h ⊢; omega)

theorem md5Model_length (bs : List Nat) : (md5Model bs).length = 16 := by
  simp [md5Model]
  omega

theorem fileInfo_decode_encode (fi : FileInfo) (rest : List Nat) (h : fi.WF) :
    FileInfo.decode (fi.encode ++ rest) = .ok (fi, rest) := by
  obtain ⟨h1, h2, h3, h4⟩ := h
  have e0 : fi.encode ++ rest =
      toLE 8 fi.id ++ (toLE 4 fi.size ++ (toLE 4 fi.offset ++
        (fi.location_hash ++ rest))) := by
    simp [FileInfo.encode]
  rw [FileInfo.decode, e0, readLE8_toLE fi.id _ h1]
  simp only [RustResult.bind_ok]
  rw [readLE4_toLE fi.size _ h2]
  simp only [RustResult.bind_ok]
  rw [readLE4_toLE fi.offset _ h3]
  simp only [RustResult.bind_ok]
  rw [read_exact_of_len 16 fi.location_hash rest h4]
  simp only [RustResult.bind_ok]

theorem fileHeader_encode_eq_ok (fh : FileHeader) (h : fh.location.length < 2 ^ 16) :
    FileHeader.encode fh = .ok (fh.hash ++ toLE 2 fh.location.length ++ fh.location) := by
  rw [FileHeader.encode, if_pos h]

theorem fileHeader_decode_encode (fh : FileHeader) (rest : List Nat)
    (hh : fh.hash.length = 16) (hv : isValidUtf8 fh.location = true)
    (hl : fh.location.length < 2 ^ 16) :
    FileHeader.decode (fh.hash ++ toLE 2 fh.location.length ++ fh.location ++ rest) =
      .ok (fh, rest) := by
  have e0 : fh.hash ++ toLE 2 fh.location.length ++ fh.location ++ rest =
      fh.hash ++ (toLE 2 fh.location.length ++ (fh.location ++ rest)) := by
    simp
  rw [FileHeader.decode, e0, read_exact_of_len 16 fh.hash _ hh]
  simp only [RustResult.bind_ok]
  rw [readLE2_toLE fh.location.length _ hl]
  simp only [RustResult.bind_ok]
  rw [read_exact_of_len fh.location.length fh.location rest rfl]
  simp only [RustResult.bind_ok, hv, if_true]

theorem decodeFileInfos_encode (fis : List FileInfo) (rest : List Nat)
    (h : ∀ fi ∈ fis, fi.WF) :
    decodeFileInfos fis.length ((fis.map FileInfo.encode).flatten ++ rest) =
      .ok (fis, rest) := by
  induction fis with
  | nil => simp [decodeFileInfos]
  | cons fi fis ih =>
    have hfi : fi.WF := h fi (by simp)
    have hrest : ∀ x ∈ fis, x.WF := fun x hx => h x (by simp [hx])
    have e0 : ((fi :: fis).map FileInfo.encode).flatten ++ rest =
        fi.encode ++ ((fis.map FileInfo.encode).flatten ++ rest) := by
      simp
    rw [List.length_cons, e0, decodeFileInfos, fileInfo_decode_encode fi _ hfi]
    simp only [RustResult.bind_ok]
    rw [ih hrest]
    simp only [RustResult.bind_ok]

theorem blockHeader_encode_eq_ok (h : BlockHeader) (hn : h.file_info.length < u32Mod) :
    BlockHeader.encode h = .ok (toLE 2 h.version ++ toLE 4 h.file_info.length ++
      (h.file_info.map FileInfo.encode).flatten) := by
  simp [BlockHeader.encode, hn]

theorem blockHeader_decode_encode (h : BlockHeader) (rest : List Nat)
    (hv : h.version < 2 ^ 16) (hn : h.file_info.length < u32Mod)
    (hfis : ∀ fi ∈ h.file_info, fi.WF) :
    BlockHeader.decode (toLE 2 h.version ++ toLE 4 h.file_info.length ++
      (h.file_info.map FileInfo.encode).flatten ++ rest) = .ok (h, rest) := by
  have e0 : toLE 2 h.version ++ toLE 4 h.file_info.length ++
      (h.file_info.map FileInfo.encode).flatten ++ rest =
      toLE 2 h.version ++ (toLE 4 h.file_info.length ++
        ((h.file_info.map FileInfo.encode).flatten ++ rest)) := by
    simp
  rw [BlockHeader.decode, e0, readLE2_toLE h.version _ hv]
  simp only [RustResult.bind_ok]
  rw [readLE4_toLE h.file_info.length _ hn]
  simp only [RustResult.bind_ok]
  rw [decodeFileInfos_encode h.file_info rest hfis]
  simp only [RustResult.bind_ok]

theorem roundUpSpec_eq_self (v b : Nat) (h : v % b = 0) : roundUpSpec v b = v := by
  simp [roundUpSpec, h]

theorem roundUpSpec_ge (v b : Nat) : v ≤ roundUpSpec v b := by
  unfold roundUpSpec
  split
  · exact Nat.le_refl v
  · exact Nat.le_add_right v _

theorem roundUpSpec_as_mul (v b : Nat) (hb : 0 < b) (hr : v % b ≠ 0) :
    roundUpSpec v b = b * (v / b + 1) := by
  unfold roundUpSpec
  rw [if_neg hr]
  have h1 : v % b + b * (v / b) = v := Nat.mod_add_div v b
  have h2 : v % b < b := Nat.mod_lt v hb
  have e : v + (b - v % b) = b * (v / b) + b := by omega
  rw [e, Nat.mul_add, Nat.mul_one]

theorem roundUpSpec_mod (v b : Nat) (hb : 0 < b) : roundUpSpec v b % b = 0 := by
  by_cases hr : v % b = 0
  · rw [roundUpSpec_eq_self v b hr]
    exact hr
  · rw [roundUpSpec_as_mul v b hb hr]
    exact Nat.mul_mod_right b _

theorem roundUpSpec_sub_lt (v b : Nat) (hb : 0 < b) : roundUpSpec v b - v < b := by
  by_cases hr : v % b = 0
  · rw [roundUpSpec_eq_self v b hr]
    omega
  · unfold roundUpSpec
    rw [if_neg hr]
    have h2 : v % b < b := Nat.mod_lt v hb
    omega

theorem roundUpSpec_min (v b m : Nat) (hb : 0 < b) (hm : v ≤ m) (hmod : m % b = 0) :
    roundUpSpec v b ≤ m := by
  by_cases hr : v % b = 0
  · rw [roundUpSpec_eq_self v b hr]
    exact hm
  · rw [roundUpSpec_as_mul v b hb hr]
    obtain ⟨k, hk⟩ : b ∣ m := Nat.dvd_of_mod_eq_zero hmod
    subst hk
    have h1 : v % b + b * (v / b) = v := Nat.mod_add_div v b
    have hqk : v / b < k := by
      by_contra hc
      push_neg at hc
      have : b * k ≤ b * (v / b) := Nat.mul_le_mul_left b hc
      omega
    exact Nat.mul_le_mul_left b hqk

theorem roundUpSpec_le_add (v b : Nat) (hb : 0 < b) : roundUpSpec v b ≤ v + b - 1 := by
  by_cases hr : v % b = 0
  · rw [roundUpSpec_eq_self v b hr]
    omega
  · unfold roundUpSpec
    rw [if_neg hr]
    have h2 : v % b < b := Nat.mod_lt v hb
    omega

theorem round_up_to_eq_spec (v b : Nat) (hb : b ≠ 0)
    (hlt : roundUpSpec v b < u32Mod) : round_up_to v b = .ok (roundUpSpec v b) := by
  rw [round_up_to, if_neg hb]
  show (if v % b = 0 then RustResult.ok v
        else .ok ((v + b - v % b) % u32Mod)) = .ok (roundUpSpec v b)
  by_cases hr : v % b = 0
  · rw [if_pos hr, roundUpSpec_eq_self v b hr]
  · rw [if_neg hr]
    have e : v + b - v % b = roundUpSpec v b := by
      have h2 : v % b < b := Nat.mod_lt v (Nat.pos_of_ne_zero hb)
      unfold roundUpSpec
      rw [if_neg hr]
      omega
    rw [e, Nat.mod_eq_of_lt hlt]

theorem round_up_to_ok_lt (v b w : Nat) (hv : v < u32Mod)
    (h : round_up_to v b = .ok w) : w < u32Mod := by
  by_cases hb : b = 0
  · simp [round_up_to, hb] at h
  · by_cases hr : v % b = 0
    · simp [round_up_to, hb, hr] at h
      omega
    · simp [round_up_to, hb, hr] at h
      have hm : (v + b - v % b) % u32Mod < u32Mod :=
        Nat.mod_lt _ (by norm_num [u32Mod])
      omega

theorem buildLoop_ok_shape (md5 : List Nat → List Nat)
    (hmd5 : ∀ bs, (md5 bs).length = 16) (files : List AddFileRequest)
    (off : Nat) (buf buf2 : List Nat) (infos : List FileInfo)
    (hoff : off < u32Mod)
    (h : buildLoop md5 files off buf = (buf2, .ok infos)) :
    infos.map FileInfo.id = files.map AddFileRequest.id ∧
    infos.length = files.length ∧
    ∀ fi ∈ infos, fi.size < u32Mod ∧ fi.offset < u32Mod ∧
      fi.location_hash.length = 16 := by
  revert hoff h
  induction files generalizing off buf buf2 infos with
  | nil =>
    intro hoff h
    simp only [buildLoop, Prod.mk.injEq, RustResult.ok.injEq] at h
    obtain ⟨h1, h2⟩ := h
    subst h2
    simp
  | cons r rest ih =>
    intro hoff h
    simp only [buildLoop] at h
    split at h
    case _ fhBytes heq1 =>
      split at h
      case _ off2 heq2 =>
        split at h
        case _ buf3 infos' heq3 =>
          simp only [Prod.mk.injEq, RustResult.ok.injEq] at h
          obtain ⟨hb, hi⟩ := h
          subst hi
          have hv : (off + (fhBytes.length +
              (memBufContent r.content).length) % u32Mod) % u32Mod < u32Mod :=
            Nat.mod_lt _ (by norm_num [u32Mod])
          have hoff2 : off2 < u32Mod := round_up_to_ok_lt _ _ _ hv heq2
          obtain ⟨ha, hlen, hwf⟩ := ih off2 _ buf3 infos' hoff2 heq3
          refine ⟨?_, ?_, ?_⟩
          · simp [FileInfo.new_at_offset, ha]
          · simp [hlen]
          · intro fi hfi
            rcases List.mem_cons.mp hfi with hfi | hfi
            · subst hfi
              refine ⟨Nat.mod_lt _ (by norm_num [u32Mod]), hoff, hmd5 _⟩
            · exact hwf fi hfi
        case _ buf3 e heq3 => simp at h
        case _ buf3 m heq3 => simp at h
      case _ e heq2 => simp at h
      case _ m heq2 => simp at h
    case _ e heq1 => simp at h
    case _ m heq1 => simp at h

theorem from_files_ok_inv (md5 : List Nat → List Nat) (files : List AddFileRequest)
    (b : Block) (st : Option (List Nat))
    (h : Block.from_files md5 none files = (.ok b, st)) :
    ∃ off0 buf infos hdrBytes,
      files ≠ [] ∧
      round_up_to ((sizeOfBlockStruct + files.length * sizeOfFileInfoStruct) % u32Mod)
        BLOCK_PAGE_SIZE = .ok off0 ∧
      buildLoop md5 files off0 [] = (buf, .ok infos) ∧
      BlockHeader.encode { version := 1, file_info := infos } = .ok hdrBytes ∧
      Block.openBlock (hdrBytes ++ buf.drop hdrBytes.length) = .ok b ∧
      st = some (hdrBytes ++ buf.drop hdrBytes.length) := by
  by_cases hemp : files.isEmpty
  · simp [Block.from_files, hemp] at h
  · simp only [Block.from_files, hemp, Bool.false_eq_true, if_false] at h
    split at h
    case _ off0 heq0 =>
      split at h
      case _ buf infos heq1 =>
        split at h
        case _ hdrBytes heq2 =>
          simp only [Prod.mk.injEq] at h
          exact ⟨off0, buf, infos, hdrBytes,
            fun hne => hemp (by simp [hne]), heq0, heq1, heq2, h.1, h.2.symm⟩
        case _ e heq2 => simp at h
        case _ m heq2 => simp at h
      case _ buf e heq1 => simp at h
      case _ buf m heq1 => simp at h
    case _ e heq0 => simp at h
    case _ m heq0 => simp at h

theorem openBlock_of_decode (buf : List Nat) (h : BlockHeader) (rest : List Nat)
    (hd : BlockHeader.decode buf = .ok (h, rest)) :
    Block.openBlock buf = .ok { header := h, mmap := buf } := by
  rw [Block.openBlock, hd]

theorem from_files_ok_header (md5 : List Nat → List Nat)
    (files : List AddFileRequest) (b : Block) (st : Option (List Nat))
    (hmd5 : ∀ bs, (md5 bs).length = 16)
    (hid : ∀ r ∈ files, r.id < 2 ^ 64)
    (h : Block.from_files md5 none files = (.ok b, st)) :
    ∃ off0 buf infos,
      files ≠ [] ∧
      round_up_to ((sizeOfBlockStruct + files.length * sizeOfFileInfoStruct) % u32Mod)
        BLOCK_PAGE_SIZE = .ok off0 ∧
      buildLoop md5 files off0 [] = (buf, .ok infos) ∧
      b.header = { version := 1, file_info := infos } := by
  obtain ⟨off0, buf, infos, hdrBytes, hne, hoff0, hloop, henc, hopen, hst⟩ :=
    from_files_ok_inv md5 files b st h
  have hoffv : (sizeOfBlockStruct + files.length * sizeOfFileInfoStruct) % u32Mod
      < u32Mod := Nat.mod_lt _ (by norm_num [u32Mod])
  have hoff0lt : off0 < u32Mod := round_up_to_ok_lt _ _ _ hoffv hoff0
  obtain ⟨hids, hlen, hwf⟩ :=
    buildLoop_ok_shape md5 hmd5 files off0 [] buf infos hoff0lt hloop
  have hwf2 : ∀ fi ∈ infos, fi.WF := by
    intro fi hfi
    have h1 := hwf fi hfi
    have hidfi : fi.id < 2 ^ 64 := by
      have hmem : fi.id ∈ infos.map FileInfo.id := List.mem_map_of_mem _ hfi
      rw [hids] at hmem
      obtain ⟨r, hr, he⟩ := List.mem_map.mp hmem
      rw [← he]
      exact hid r hr
    exact ⟨hidfi, h1.1, h1.2.1, h1.2.2⟩
  have hcount : infos.length < u32Mod := by
    by_contra hc
    rw [BlockHeader.encode] at henc
    rw [if_neg (by simpa using hc)] at henc
    simp at henc
  have henc2 : hdrBytes = toLE 2 1 ++ toLE 4 infos.length ++
      (infos.map FileInfo.encode).flatten := by
    have he := blockHeader_encode_eq_ok { version := 1, file_info := infos }
      (by simpa using hcount)
    rw [henc] at he
    simpa using he
  have hdec : ∀ rest : List Nat, BlockHeader.decode (hdrBytes ++ rest) =
      .ok ({ version := 1, file_info := infos }, rest) := by
    intro rest
    rw [henc2]
    have hd := blockHeader_decode_encode { version := 1, file_info := infos }
      rest (by norm_num) (by simpa using hcount) (by simpa using hwf2)
    simpa [List.append_assoc] using hd
  have hb : b = Block.mk { version := 1, file_info := infos }
      (hdrBytes ++ buf.drop hdrBytes.length) := by
    have ho := openBlock_of_decode _ _ _ (hdec (buf.drop hdrBytes.length))
    rw [ho] at hopen
    exact (RustResult.ok.injEq _ _ |>.mp hopen).symm
  subst hb
  exact ⟨off0, buf, infos, hne, hoff0, hloop, rfl⟩

/-- C2: for every non-empty request list of existing regular source files,
a successful build at a fresh target path returns the opened block, whose
`len()` is the number of requests and whose `iter()` lists the entries in
request order, the i-th entry carrying the i-th request id. The digest
function is assumed to produce 16-byte digests (as MD5 does) and ids to be
`u64` values (as the Rust type makes them). -/
theorem claim_C2_build_then_open (md5 : List Nat → List Nat)
    (files : List AddFileRequest) (b : Block) (st : Option (List Nat))
    (hmd5 : ∀ bs, (md5 bs).length = 16)
    (hid : ∀ r ∈ files, r.id < 2 ^ 64)
    (h : Block.from_files md5 none files = (.ok b, st)) :
    files ≠ [] ∧ b.len = files.length ∧
      b.iter.map FileInfo.id = files.map AddFileRequest.id := by
  obtain ⟨off0, buf, infos, hne, hoff0, hloop, hhdr⟩ :=
    from_files_ok_header md5 files b st hmd5 hid h
  have hoffv : (sizeOfBlockStruct + files.length * sizeOfFileInfoStruct) % u32Mod
      < u32Mod := Nat.mod_lt _ (by norm_num [u32Mod])
  have hoff0lt : off0 < u32Mod := round_up_to_ok_lt _ _ _ hoffv hoff0
  obtain ⟨hids, hlen, _⟩ :=
    buildLoop_ok_shape md5 hmd5 files off0 [] buf infos hoff0lt hloop
  refine ⟨hne, ?_, ?_⟩
  · rw [Block.len, hhdr]
    simpa using hlen
  · rw [Block.iter, hhdr]
    simpa using hids

/-- C2 witness: the concrete one-request build evaluates, and the claim
instance follows by applying the C2 theorem to it. -/
theorem claim_C2_witness :
    [cReqHello] ≠ [] ∧ cHelloBlock.len = [cReqHello].length ∧
      cHelloBlock.iter.map FileInfo.id = [cReqHello].map AddFileRequest.id :=
  claim_C2_build_then_open md5Model [cReqHello] cHelloBlock cHelloBuild.2
    md5Model_length (by decide) (by rfl)

/-- C4: decoding the encoding is the identity on all three record types: for
every `FileInfo` value, every `FileHeader` whose location fits the 16-bit
length field, and every `BlockHeader` whose entry count fits `u32` (with the
field ranges the Rust types guarantee), `decode (encode x) = x`, consuming
exactly the encoded bytes. -/
theorem claim_C4_roundtrip :
    (∀ (fi : FileInfo) (rest : List Nat), fi.WF →
      FileInfo.decode (fi.encode ++ rest) = .ok (fi, rest)) ∧
    (∀ (fh : FileHeader) (rest : List Nat), fh.WF → fh.location.length < 2 ^ 16 →
      (FileHeader.encode fh).bind (fun bs => FileHeader.decode (bs ++ rest)) =
        .ok (fh, rest)) ∧
    (∀ (h : BlockHeader) (rest : List Nat), h.WF → h.file_info.length < u32Mod →
      (BlockHeader.encode h).bind (fun bs => BlockHeader.decode (bs ++ rest)) =
        .ok (h, rest)) := by
  refine ⟨fun fi rest hwf => fileInfo_decode_encode fi rest hwf, ?_, ?_⟩
  · intro fh rest hwf hlen
    rw [fileHeader_encode_eq_ok fh hlen]
    simp only [RustResult.bind_ok]
    exact fileHeader_decode_encode fh rest hwf.1 hwf.2 hlen
  · intro h rest hwf hn
    rw [blockHeader_encode_eq_ok h hn]
    simp only [RustResult.bind_ok]
    exact blockHeader_decode_encode h rest hwf.1 hn hwf.2

/-- C4 witness: the three round trips evaluated at concrete records. -/
theorem claim_C4_witness :
    FileInfo.decode (cFi.encode ++ []) = .ok (cFi, []) ∧
    (FileHeader.encode cFh).bind (fun bs => FileHeader.decode (bs ++ [])) =
      .ok (cFh, []) ∧
    (BlockHeader.encode cBh).bind (fun bs => BlockHeader.decode (bs ++ [])) =
      .ok (cBh, []) :=
  ⟨claim_C4_roundtrip.1 cFi [] (by decide),
   claim_C4_roundtrip.2.1 cFh [] (by decide) (by decide),
   claim_C4_roundtrip.2.2 cBh [] (by decide) (by decide)⟩

/-- C3 counterexample: the claim promises the smallest multiple of the base at
or above the value for every u32 input, but at value 2^32 - 1 with base 2 the
u32 arithmetic of `round_up_to` wraps to 0, which is below the value. -/
theorem claim_C3_counterexample :
    round_up_to (2 ^ 32 - 1) 2 = .ok 0 ∧ ¬ (2 ^ 32 - 1 ≤ 0) := by
  constructor
  · decide
  · decide

/-- C3 amended: provided the smallest multiple of the positive base at or
above the value is still a u32 (no overflow), `round_up_to` returns it, and it
satisfies all the claimed properties: at or above the value, divisible by the
base, less than one base above the value, a fixed point on multiples, and
minimal among multiples at or above the value. -/
theorem claim_C3_round_up_to (v b : Nat) (hb0 : 0 < b)
    (hfit : roundUpSpec v b < u32Mod) :
    round_up_to v b = .ok (roundUpSpec v b) ∧
    v ≤ roundUpSpec v b ∧ roundUpSpec v b % b = 0 ∧ roundUpSpec v b - v < b ∧
    (v % b = 0 → roundUpSpec v b = v) ∧
    (∀ m, v ≤ m → m % b = 0 → roundUpSpec v b ≤ m) :=
  ⟨round_up_to_eq_spec v b (Nat.pos_iff_ne_zero.mp hb0) hfit,
   roundUpSpec_ge v b, roundUpSpec_mod v b hb0, roundUpSpec_sub_lt v b hb0,
   roundUpSpec_eq_self v b, fun m hm hmod => roundUpSpec_min v b m hb0 hm hmod⟩

/-- C3 witness: the amended statement evaluated at the documented example
`round_up_to 13 12 = 24`. -/
theorem claim_C3_witness :
    round_up_to 13 12 = .ok (roundUpSpec 13 12) ∧
    13 ≤ roundUpSpec 13 12 ∧ roundUpSpec 13 12 % 12 = 0 ∧
    roundUpSpec 13 12 - 13 < 12 ∧ (13 % 12 = 0 → roundUpSpec 13 12 = 13) ∧
    (∀ m, 13 ≤ m → m % 12 = 0 → roundUpSpec 13 12 ≤ m) :=
  claim_C3_round_up_to 13 12 (by decide) (by decide)

/-- C6: building into a target path that already exists fails with the
already-exists error and returns the pre-existing file bytes unchanged (stated
for request lists that pass the earlier empty-list check, which the source
performs before touching the target). -/
theorem claim_C6_existing_target (md5 : List Nat → List Nat) (bs : List Nat)
    (files : List AddFileRequest) (hne : files ≠ []) :
    Block.from_files md5 (some bs) files =
      (.error .blockFileAlreadyExists, some bs) := by
  rw [Block.from_files, if_neg (by simpa using hne)]

/-- C6 witness: a concrete pre-existing two-byte target survives unchanged. -/
theorem claim_C6_witness :
    Block.from_files md5Model (some [9, 9]) [cReqHello] =
      (.error .blockFileAlreadyExists, some [9, 9]) :=
  claim_C6_existing_target md5Model [9, 9] [cReqHello] (by decide)

/-- C10: calling round_up_to with base zero hits the unguarded `value % base`
remainder and panics with the divide-by-zero panic, for every u32 value; no
error value is returned. -/
theorem claim_C10_zero_base (v : Nat) (_hv : v < u32Mod) :
    round_up_to v 0 =
      .panicked "attempt to calculate the remainder with a divisor of zero" := by
  rw [round_up_to, if_pos rfl]

/-- C10 witness: the zero-base panic evaluated at value 7. -/
theorem claim_C10_witness :
    round_up_to 7 0 =
      .panicked "attempt to calculate the remainder with a divisor of zero" :=
  claim_C10_zero_base 7 (by decide)

/-- C9: block-header decoding never inspects the version field: any u16
version value round-trips through encode, open succeeds on the resulting
bytes (with any trailing junk) when the rest of the header is well formed,
and the opened header preserves the version value. -/
theorem claim_C9_version_ignored (version : Nat) (infos : List FileInfo)
    (rest : List Nat) (hv : version < 2 ^ 16) (hn : infos.length < u32Mod)
    (hwf : ∀ fi ∈ infos, fi.WF) :
    (BlockHeader.encode { version := version, file_info := infos }).bind
      (fun bs => (Block.openBlock (bs ++ rest)).map Block.header) =
      .ok { version := version, file_info := infos } := by
  rw [blockHeader_encode_eq_ok _ (by simpa using hn)]
  simp only [RustResult.bind_ok]
  have hd := blockHeader_decode_encode { version := version, file_info := infos }
    rest (by simpa using hv) (by simpa using hn) (by simpa using hwf)
  rw [openBlock_of_decode _ _ _ (by simpa using hd)]
  rfl

/-- C9 witness: a header carrying version 7 (not the written version 1) opens
and the version is preserved. -/
theorem claim_C9_witness :
    (BlockHeader.encode { version := 7, file_info := [cFi] }).bind
      (fun bs => (Block.openBlock (bs ++ [3])).map Block.header) =
      .ok { version := 7, file_info := [cFi] } :=
  claim_C9_version_ignored 7 [cFi] [3] (by decide) (by decide) (by decide)

/-- C7: encoding a per-file sub-header returns the file-name-too-long error
exactly when the location byte length exceeds the 16-bit length field (and
otherwise succeeds), and decoding returns the invalid-UTF-8 error whenever the
location bytes read are not valid UTF-8. -/
theorem claim_C7_fileheader_errors :
    (∀ fh : FileHeader,
      (FileHeader.encode fh = .error .fileNameTooLong ↔
        2 ^ 16 ≤ fh.location.length) ∧
      (fh.location.length < 2 ^ 16 →
        FileHeader.encode fh =
          .ok (fh.hash ++ toLE 2 fh.location.length ++ fh.location))) ∧
    (∀ hash loc rest : List Nat, hash.length = 16 → loc.length < 2 ^ 16 →
      isValidUtf8 loc = false →
      FileHeader.decode (hash ++ toLE 2 loc.length ++ loc ++ rest) =
        .error .invalidUtf8) := by
  constructor
  · intro fh
    constructor
    · constructor
      · intro he
        by_contra hc
        push_neg at hc
        rw [fileHeader_encode_eq_ok fh hc] at he
        simp at he
      · intro hge
        rw [FileHeader.encode, if_neg (by omega)]
    · exact fun hlt => fileHeader_encode_eq_ok fh hlt
  · intro hash loc rest hh hl hbad
    have e0 : hash ++ toLE 2 loc.length ++ loc ++ rest =
        hash ++ (toLE 2 loc.length ++ (loc ++ rest)) := by
      simp
    rw [FileHeader.decode, e0, read_exact_of_len 16 hash _ hh]
    simp only [RustResult.bind_ok]
    rw [readLE2_toLE loc.length _ hl]
    simp only [RustResult.bind_ok]
    rw [read_exact_of_len loc.length loc rest rfl]
    simp only [RustResult.bind_ok, hbad]
    simp

/-- C7 witness: the encode characterization at a concrete sub-header and the
decode failure at the lone invalid byte 0xFF. -/
theorem claim_C7_witness :
    ((FileHeader.encode cFh = .error .fileNameTooLong ↔
        2 ^ 16 ≤ cFh.location.length) ∧
      (cFh.location.length < 2 ^ 16 →
        FileHeader.encode cFh =
          .ok (cFh.hash ++ toLE 2 cFh.location.length ++ cFh.location))) ∧
    FileHeader.decode (List.replicate 16 0 ++ toLE 2 [255].length ++ [255] ++ []) =
      .error .invalidUtf8 :=
  ⟨claim_C7_fileheader_errors.1 cFh,
   claim_C7_fileheader_errors.2 (List.replicate 16 0) [255] []
     (by decide) (by decide) (by decide)⟩

theorem read_exact_cases (n : Nat) (s : List Nat) :
    (∃ p, read_exact n s = .ok p) ∨ read_exact n s = .error .ioError := by
  rw [read_exact]
  split
  · exact Or.inl ⟨_, rfl⟩
  · exact Or.inr rfl

theorem readLE_cases (w : Nat) (s : List Nat) :
    (∃ p, readLE w s = .ok p) ∨ readLE w s = .error .ioError := by
  rcases read_exact_cases w s with ⟨p, hp⟩ | hp
  · exact Or.inl ⟨_, by rw [readLE, hp]; rfl⟩
  · exact Or.inr (by rw [readLE, hp]; rfl)

theorem FileHeader.decode_no_panic (s : List Nat) (m : String) :
    FileHeader.decode s ≠ .panicked m := by
  rw [FileHeader.decode]
  rcases read_exact_cases 16 s with ⟨p1, hp1⟩ | hp1 <;> rw [hp1] <;>
    simp only [RustResult.bind_ok, RustResult.bind_error]
  · rcases readLE_cases 2 p1.2 with ⟨p2, hp2⟩ | hp2 <;> rw [hp2] <;>
      simp only [RustResult.bind_ok, RustResult.bind_error]
    · rcases read_exact_cases p2.1 p2.2 with ⟨p3, hp3⟩ | hp3 <;> rw [hp3] <;>
        simp only [RustResult.bind_ok, RustResult.bind_error]
      · split <;> simp
      · simp
    · simp
  · simp

/-- C8: an index at or beyond `len()` makes `file_at` panic with the index out
of bounds panic (no recoverable error value), while an index below `len()`
never trips that panic. -/
theorem claim_C8_index_out_of_bounds (b : Block) (idx : Nat) :
    (b.len ≤ idx → Block.file_at b idx = .panicked "index out of bounds") ∧
    (idx < b.len → Block.file_at b idx ≠ .panicked "index out of bounds") := by
  constructor
  · intro hge
    rw [Block.file_at, List.get?_eq_none.mpr hge]
  · intro hlt
    cases hq : b.header.file_info.get? idx with
    | none =>
      exact absurd (List.get?_eq_none.mp hq) (by simpa [Block.len] using hlt)
    | some info =>
      rw [Block.file_at, hq]
      dsimp only
      by_cases hoff : info.offset ≤ b.mmap.length
      · rw [if_pos hoff]
        cases hd : FileHeader.decode (List.drop info.offset b.mmap) with
        | ok p =>
          obtain ⟨fh, restBytes⟩ := p
          dsimp only
          split
          · simp
          · decide
        | error e =>
          dsimp only
          simp
        | panicked m =>
          exact absurd hd (FileHeader.decode_no_panic _ _)
      · rw [if_neg hoff]
        decide

/-- C8 witness: the concrete one-entry block, at index 5 (out of range, the
panic fires) and index 0 (in range, that panic cannot fire). -/
theorem claim_C8_witness :
    Block.file_at cBlk 5 = .panicked "index out of bounds" ∧
    Block.file_at cBlk 0 ≠ .panicked "index out of bounds" :=
  ⟨(claim_C8_index_out_of_bounds cBlk 5).1 (by decide),
   (claim_C8_index_out_of_bounds cBlk 0).2 (by decide)⟩

/-- C1: evaluation of the code at the failing input of the hash bug. For the
block built from one empty source file, `file_at 0` returns the empty slice
(so the length part of the claim holds, the slice length equals the recorded
size 0), but the stored sub-header hash is the digest of the single leftover
seed byte of the copy buffer `vec![0u8]`, not the digest of the (empty)
member content, and those digests differ. -/
theorem claim_C1_empty_file_hash_bug :
    fileAtResult cEmptyBuild 0 =
      some ({ hash := md5Model [0], location := cLocA }, []) ∧
    md5Model [0] ≠ md5Model [] := by
  constructor
  · decide
  · decide

theorem FileHeader.encode_ok_length (fh : FileHeader) (bs : List Nat)
    (h : FileHeader.encode fh = .ok bs) :
    bs.length = fh.hash.length + 2 + fh.location.length := by
  by_cases hc : fh.location.length < 2 ^ 16
  · rw [fileHeader_encode_eq_ok fh hc] at h
    simp only [RustResult.ok.injEq] at h
    subst h
    simp
    omega
  · rw [FileHeader.encode, if_neg hc] at h
    simp at h

theorem memBufContent_length_pos (c : List Nat) : 0 < (memBufContent c).length := by
  rw [memBufContent]
  split
  · simp
  · rename_i hne
    simpa using List.length_pos.mpr hne

theorem bytesWrittenOf_pos (r : AddFileRequest) : 0 < bytesWrittenOf r := by
  rw [bytesWrittenOf]
  omega

theorem buildLoop_ok_offsets (md5 : List Nat → List Nat)
    (hmd5 : ∀ bs, (md5 bs).length = 16) (files : List AddFileRequest)
    (off : Nat) (buf buf2 : List Nat) (infos : List FileInfo)
    (hoff : off < u32Mod) (hmod : off % BLOCK_PAGE_SIZE = 0)
    (hnw : noWrapFrom off files = true)
    (h : buildLoop md5 files off buf = (buf2, .ok infos)) :
    List.Pairwise (· < ·) (infos.map FileInfo.offset) ∧
    ∀ o ∈ infos.map FileInfo.offset, off ≤ o ∧ o % BLOCK_PAGE_SIZE = 0 := by
  revert hoff hmod hnw h
  induction files generalizing off buf buf2 infos with
  | nil =>
    intro hoff hmod hnw h
    simp only [buildLoop, Prod.mk.injEq, RustResult.ok.injEq] at h
    obtain ⟨h1, h2⟩ := h
    subst h2
    simp
  | cons r rest ih =>
    intro hoff hmod hnw h
    simp only [noWrapFrom, Bool.and_eq_true, decide_eq_true_eq] at hnw
    obtain ⟨⟨hnw1, hnw2⟩, hnw3⟩ := hnw
    simp only [buildLoop] at h
    split at h
    case _ fhBytes heq1 =>
      split at h
      case _ off2 heq2 =>
        split at h
        case _ buf3 infos' heq3 =>
          simp only [Prod.mk.injEq, RustResult.ok.injEq] at h
          obtain ⟨hb, hi⟩ := h
          subst hi
          have hbw : fhBytes.length + (memBufContent r.content).length =
              bytesWrittenOf r := by
            have hl := FileHeader.encode_ok_length _ _ heq1
            rw [hl, hmd5, bytesWrittenOf]
          rw [hbw] at heq2
          have hbwlt : bytesWrittenOf r < u32Mod := by omega
          have hsum : (off + bytesWrittenOf r % u32Mod) % u32Mod =
              off + bytesWrittenOf r := by
            rw [Nat.mod_eq_of_lt hbwlt, Nat.mod_eq_of_lt hnw1]
          rw [hsum, round_up_to_eq_spec _ _ (by norm_num [BLOCK_PAGE_SIZE]) hnw2]
            at heq2
          simp only [RustResult.ok.injEq] at heq2
          subst heq2
          have hoff2lt : off < roundUpSpec (off + bytesWrittenOf r) BLOCK_PAGE_SIZE := by
            have hge := roundUpSpec_ge (off + bytesWrittenOf r) BLOCK_PAGE_SIZE
            have hpos := bytesWrittenOf_pos r
            omega
          obtain ⟨hpw, hbound⟩ := ih _ _ buf3 infos' hnw2
            (roundUpSpec_mod _ _ (by norm_num [BLOCK_PAGE_SIZE])) hnw3 heq3
          constructor
          · rw [List.map_cons, List.pairwise_cons]
            refine ⟨?_, hpw⟩
            intro o ho
            have := (hbound o ho).1
            simp only [FileInfo.new_at_offset]
            omega
          · intro o ho
            rcases List.mem_cons.mp ho with ho | ho
            · subst ho
              exact ⟨Nat.le_refl _, hmod⟩
            · have := hbound o ho
              exact ⟨by omega, this.2⟩
        case _ buf3 e heq3 => simp at h
        case _ buf3 m heq3 => simp at h
      case _ e heq2 => simp at h
      case _ m heq2 => simp at h
    case _ e heq1 => simp at h
    case _ m heq1 => simp at h

/-- C5 (amended): in every successfully built block whose offset arithmetic
never truncates (the `noWrapFrom` side condition: starting from the
page-aligned header size, each member advance and its page round-up stays
below 2^32), the recorded offsets strictly increase in insertion order, every
offset is a multiple of the page size 1024, and every offset is at least the
page-aligned size of the header region. -/
theorem claim_C5_offsets_aligned (md5 : List Nat → List Nat)
    (files : List AddFileRequest) (b : Block) (st : Option (List Nat))
    (hmd5 : ∀ bs, (md5 bs).length = 16)
    (hid : ∀ r ∈ files, r.id < 2 ^ 64)
    (hfit : roundUpSpec ((sizeOfBlockStruct + files.length * sizeOfFileInfoStruct)
      % u32Mod) BLOCK_PAGE_SIZE < u32Mod)
    (hnw : noWrapFrom (roundUpSpec ((sizeOfBlockStruct +
      files.length * sizeOfFileInfoStruct) % u32Mod) BLOCK_PAGE_SIZE) files = true)
    (h : Block.from_files md5 none files = (.ok b, st)) :
    List.Pairwise (· < ·) (b.iter.map FileInfo.offset) ∧
    ∀ o ∈ b.iter.map FileInfo.offset,
      o % BLOCK_PAGE_SIZE = 0 ∧
      roundUpSpec ((sizeOfBlockStruct + files.length * sizeOfFileInfoStruct)
        % u32Mod) BLOCK_PAGE_SIZE ≤ o := by
  obtain ⟨off0, buf, infos, hne, hoff0, hloop, hhdr⟩ :=
    from_files_ok_header md5 files b st hmd5 hid h
  have hoff0eq : off0 = roundUpSpec ((sizeOfBlockStruct +
      files.length * sizeOfFileInfoStruct) % u32Mod) BLOCK_PAGE_SIZE := by
    rw [round_up_to_eq_spec _ _ (by norm_num [BLOCK_PAGE_SIZE]) hfit] at hoff0
    exact (RustResult.ok.injEq _ _ |>.mp hoff0).symm
  subst hoff0eq
  obtain ⟨hpw, hbound⟩ := buildLoop_ok_offsets md5 hmd5 files _ [] buf infos hfit
    (roundUpSpec_mod _ _ (by norm_num [BLOCK_PAGE_SIZE])) hnw hloop
  rw [Block.iter, hhdr]
  refine ⟨by simpa using hpw, ?_⟩
  intro o ho
  have hb := hbound o (by simpa using ho)
  exact ⟨hb.2, hb.1⟩

/-- C5 witness: the amended statement evaluated on the concrete five-byte
build, whose single offset is 1024. -/
theorem claim_C5_witness :
    List.Pairwise (· < ·) (cHelloBlock.iter.map FileInfo.offset) ∧
    ∀ o ∈ cHelloBlock.iter.map FileInfo.offset,
      o % BLOCK_PAGE_SIZE = 0 ∧
      roundUpSpec ((sizeOfBlockStruct + [cReqHello].length * sizeOfFileInfoStruct)
        % u32Mod) BLOCK_PAGE_SIZE ≤ o :=
  claim_C5_offsets_aligned md5Model [cReqHello] cHelloBlock cHelloBuild.2
    md5Model_length (by decide) (by decide) (by decide) (by rfl)

theorem buildLoop_cons_ok (md5 : List Nat → List Nat) (r : AddFileRequest)
    (rest : List AddFileRequest) (off : Nat) (buf fhBytes : List Nat)
    (off2 : Nat) (buf3 : List Nat) (infos : List FileInfo)
    (he : FileHeader.encode
      { hash := md5 (memBufContent r.content), location := r.location } =
      .ok fhBytes)
    (hr : round_up_to ((off + (fhBytes.length + (memBufContent r.content).length)
      % u32Mod) % u32Mod) BLOCK_PAGE_SIZE = .ok off2)
    (hrec : buildLoop md5 rest off2 (setLen buf off ++ fhBytes ++
      memBufContent r.content) = (buf3, .ok infos)) :
    buildLoop md5 (r :: rest) off buf =
      (buf3, .ok (FileInfo.new_at_offset md5 r off :: infos)) := by
  simp only [buildLoop, he, hr, hrec]

theorem replicate_ne_nil_of_pos {n : Nat} (h : 0 < n) (a : Nat) :
    List.replicate n a ≠ [] := by
  cases n with
  | zero => omega
  | succ k => simp

theorem c5_memBuf_big :
    memBufContent (List.replicate c5Len 0) = List.replicate c5Len 0 := by
  rw [memBufContent,
    if_neg (replicate_ne_nil_of_pos (by norm_num [c5Len]) 0)]

theorem c5_size_big : c5rBig.content.length % u32Mod = c5Len := by
  have h1 : c5rBig.content.length = c5Len := by
    show (List.replicate c5Len 0).length = c5Len
    exact List.length_replicate c5Len 0
  rw [h1]
  exact Nat.mod_eq_of_lt (by norm_num [c5Len, u32Mod])

theorem c5_new_at_offset_big : FileInfo.new_at_offset c5md5 c5rBig 1024 = c5i1 := by
  calc FileInfo.new_at_offset c5md5 c5rBig 1024
      = { id := c5rBig.id, size := c5rBig.content.length % u32Mod, offset := 1024,
          location_hash := c5md5 c5rBig.location } := rfl
    _ = c5i1 := by
        rw [c5_size_big]
        exact rfl

theorem c5_new_at_offset_small :
    FileInfo.new_at_offset c5md5 c5rSmall 1024 = c5i2 := by
  decide

theorem c5_he1 : FileHeader.encode c5fh1 = .ok c5fhB1 :=
  fileHeader_encode_eq_ok c5fh1 (by decide)

theorem c5_he2 : FileHeader.encode c5fh2 = .ok c5fhB2 :=
  fileHeader_encode_eq_ok c5fh2 (by decide)

theorem c5_len1 : c5fhB1.length + (memBufContent c5rBig.content).length = 2 ^ 32 := by
  have h1 : c5fhB1.length = 20 := by decide
  have h2 : (memBufContent c5rBig.content).length = c5Len := by
    have hm : memBufContent c5rBig.content = List.replicate c5Len 0 := c5_memBuf_big
    rw [hm, List.length_replicate]
  rw [h1, h2]
  norm_num [c5Len]

theorem c5_hr1 : round_up_to ((1024 + (c5fhB1.length +
    (memBufContent c5rBig.content).length) % u32Mod) % u32Mod)
    BLOCK_PAGE_SIZE = .ok 1024 := by
  rw [c5_len1]
  norm_num [u32Mod]
  decide

theorem c5_hr2 : round_up_to ((1024 + (c5fhB2.length +
    (memBufContent c5rSmall.content).length) % u32Mod) % u32Mod)
    BLOCK_PAGE_SIZE = .ok 2048 := by
  decide

theorem c5_step2 : buildLoop c5md5 [c5rSmall] 1024 c5buf2 =
    (c5buf3, .ok [c5i2]) := by
  have hnil : buildLoop c5md5 [] 2048 c5buf3 = (c5buf3, .ok []) := rfl
  have hs := buildLoop_cons_ok c5md5 c5rSmall [] 1024 c5buf2 c5fhB2 2048
    c5buf3 [] c5_he2 c5_hr2 hnil
  rw [c5_new_at_offset_small] at hs
  exact hs

theorem c5_step1 : buildLoop c5md5 [c5rBig, c5rSmall] 1024 [] =
    (c5buf3, .ok [c5i1, c5i2]) := by
  have hs := buildLoop_cons_ok c5md5 c5rBig [c5rSmall] 1024 [] c5fhB1 1024
    c5buf3 [c5i2] c5_he1 c5_hr1 c5_step2
  rw [c5_new_at_offset_big] at hs
  exact hs

theorem c5_encH : BlockHeader.encode { version := 1, file_info := [c5i1, c5i2] } =
    .ok c5hdrB :=
  blockHeader_encode_eq_ok _ (by decide)

theorem c5_open : Block.openBlock (c5hdrB ++ c5buf3.drop c5hdrB.length) =
    .ok (Block.mk { version := 1, file_info := [c5i1, c5i2] }
      (c5hdrB ++ c5buf3.drop c5hdrB.length)) := by
  apply openBlock_of_decode
  exact blockHeader_decode_encode { version := 1, file_info := [c5i1, c5i2] }
    (c5buf3.drop c5hdrB.length) (by decide) (by decide) (by decide)


theorem from_files_eq_of (md5 : List Nat → List Nat)
    (files : List AddFileRequest) (off0 : Nat) (buf : List Nat)
    (infos : List FileInfo) (hdrBytes : List Nat)
    (hne : files.isEmpty = false)
    (hr0 : round_up_to ((sizeOfBlockStruct + files.length * sizeOfFileInfoStruct)
      % u32Mod) BLOCK_PAGE_SIZE = .ok off0)
    (hloop : buildLoop md5 files off0 [] = (buf, .ok infos))
    (henc : BlockHeader.encode { version := 1, file_info := infos } = .ok hdrBytes) :
    Block.from_files md5 none files =
      (Block.openBlock (hdrBytes ++ buf.drop hdrBytes.length),
       some (hdrBytes ++ buf.drop hdrBytes.length)) := by
  simp only [Block.from_files, hne, hr0, hloop, henc, if_false, Bool.false_eq_true]

/-- C5 counterexample: a successfully built block whose recorded offsets are
not strictly increasing. The first member is 2^32 - 20 bytes long, so its
sub-header plus content is exactly 2^32 bytes and the truncating
`bytes_written as u32` cast makes the second member reuse offset 1024; the
build nevertheless succeeds and returns a block with offsets 1024, 1024. -/
theorem claim_C5_counterexample :
    builtOffsets (Block.from_files c5md5 none [c5rBig, c5rSmall]) =
      some [1024, 1024] ∧
    ¬ List.Pairwise (· < ·) ([1024, 1024] : List Nat) := by
  constructor
  · have hff := from_files_eq_of c5md5 [c5rBig, c5rSmall] 1024 c5buf3
      [c5i1, c5i2] c5hdrB (by decide) (by decide) c5_step1 c5_encH
    rw [c5_open] at hff
    rw [builtOffsets, hff]
    exact rfl
  · decide
